import Mathlib

/-!
# Plateful — verification of the recipe-acquisition core

A shallow embedding of the Plateful browser application's core logic
(`src/App.tsx`, `src/services/geminiService.ts`,
`src/components/RecipeCard.tsx`) and proofs of the specified properties.

Modelling conventions:
* asynchronous calls to the external AI service are oracles passed in as
  functions; a call that can throw is modelled as `Except String α`;
* `crypto.randomUUID()` is modelled as a supply `uuid : Nat → String`
  consumed sequentially (the n-th call returns `uuid n`); its global
  freshness is an environment assumption stated as `Function.Injective uuid`;
* JavaScript strings are modelled by Lean `String` (a list of Unicode
  scalar values); the code points involved in the claims are all below
  `0x10000`, where the two representations agree.
-/

namespace Plateful

/-- The `Recipe` interface of `src/types.ts`.  Optional fields (`imageUrl?`,
`imageError?`) are modelled as `Option`; an absent field is `none`. -/
structure Recipe where
  id : String
  recipeName : String
  description : String
  ingredients : List String
  instructions : List String
  imagePrompt : String
  imageUrl : Option String := none
  imageError : Option Bool := none
deriving Repr, DecidableEq

/-! ## Image Acquisition Loop (`generateAndSetImageForRecipe`, App.tsx 72–105) -/

/-- `MAX_ATTEMPTS` of App.tsx line 73. -/
def MAX_ATTEMPTS : Nat := 2

/-- The mutable locals of the `while` loop in `generateAndSetImageForRecipe`:
`currentRecipe`, `imageUrl`, `isValid`, `attempts`. -/
structure LoopState where
  currentRecipe : Recipe
  imageUrl : Option String
  isValid : Bool
  attempts : Nat
deriving Repr, DecidableEq

/-- The refined prompt of App.tsx line 88 (template literal spelled out). -/
def refinedPrompt (r : Recipe) : String :=
  "A more accurate, photorealistic image of: " ++ r.recipeName ++
    ". Focus on the dish itself, described as: " ++ r.description

/-- One iteration of the `while` body (App.tsx 80–93).  `gen n p` is the
result of `generateRecipeImage(p)` on the n-th attempt (`.error` = the call
threw); `val n img` is the boolean returned by `validateRecipeImage` on the
n-th attempt (always a boolean: see `isFoodImage_failSafe` below).  In the
`catch` branch the prompt is *not* refined. -/
def imageAttemptStep (gen : Nat → String → Except String String)
    (val : Nat → String → Bool) (s : LoopState) : LoopState :=
  match gen (s.attempts + 1) s.currentRecipe.imagePrompt with
  | .ok generatedBase64 =>
    if val (s.attempts + 1) generatedBase64 then
      { s with attempts := s.attempts + 1, isValid := true, imageUrl := some generatedBase64 }
    else if s.attempts + 1 < MAX_ATTEMPTS then
      { s with
          attempts := s.attempts + 1,
          isValid := false,
          currentRecipe := { s.currentRecipe with imagePrompt := refinedPrompt s.currentRecipe } }
    else
      { s with attempts := s.attempts + 1, isValid := false }
  | .error _ => { s with attempts := s.attempts + 1, isValid := false }

/-- The `while (!isValid && attempts < MAX_ATTEMPTS)` loop, with fuel.  Each
iteration increments `attempts`, so `MAX_ATTEMPTS + 1` fuel is always enough
for the guard to settle. -/
def imageLoopGo (gen : Nat → String → Except String String)
    (val : Nat → String → Bool) : Nat → LoopState → LoopState
  | 0, s => s
  | fuel + 1, s =>
    if s.isValid = false ∧ s.attempts < MAX_ATTEMPTS then
      imageLoopGo gen val fuel (imageAttemptStep gen val s)
    else s

/-- Running the loop of `generateAndSetImageForRecipe` from its initial state
(App.tsx 74–77): `currentRecipe = {...recipe}`, no image, `isValid = false`,
`attempts = 0`. -/
def runImageLoop (gen : Nat → String → Except String String)
    (val : Nat → String → Bool) (recipe : Recipe) : LoopState :=
  imageLoopGo gen val (MAX_ATTEMPTS + 1)
    { currentRecipe := recipe, imageUrl := none, isValid := false, attempts := 0 }

/-- `finalRecipeState` of App.tsx line 96:
`{ ...currentRecipe, imageUrl: isValid ? imageUrl : undefined, imageError: !isValid }`. -/
def finalRecipeState (gen : Nat → String → Except String String)
    (val : Nat → String → Bool) (recipe : Recipe) : Recipe :=
  let s := runImageLoop gen val recipe
  { s.currentRecipe with
      imageUrl := if s.isValid then s.imageUrl else none,
      imageError := some (!s.isValid) }

/-- The keyed in-place update of App.tsx 99–100:
`prev.map(r => r.id === finalRecipeState.id ? finalRecipeState : r)`. -/
def settleUpdate (finalRecipe : Recipe) (l : List Recipe) : List Recipe :=
  l.map fun r => if r.id = finalRecipe.id then finalRecipe else r

/-- The advisory of App.tsx line 103. -/
def imageFailureMessage : String :=
  "We had trouble creating an image for one or more recipes. For best results, try starting over with a clearer photo of your ingredients."

/-- The whole settle effect of `generateAndSetImageForRecipe` on the app state
it touches: the `recipes` collection (nullable), the `popularRecipes`
collection, and the `error` message. -/
def generateAndSetImageForRecipe (gen : Nat → String → Except String String)
    (val : Nat → String → Bool) (recipe : Recipe)
    (recipes : Option (List Recipe)) (popularRecipes : List Recipe)
    (error : Option String) :
    Option (List Recipe) × List Recipe × Option String :=
  let s := runImageLoop gen val recipe
  let finalRecipe : Recipe :=
    { s.currentRecipe with
        imageUrl := if s.isValid then s.imageUrl else none,
        imageError := some (!s.isValid) }
  (recipes.map (settleUpdate finalRecipe),
   settleUpdate finalRecipe popularRecipes,
   if s.isValid then error else some imageFailureMessage)

/-! ## Instruction Time Parser (`parseInstructionForTime`, RecipeCard.tsx 14–30)

The source matches the JavaScript regex
`/(?:(\d+)\s*to\s*)?(\d+)\s*(minute|minutes|hour|hours)/i` against the
instruction and, on a match, converts `parseInt(match[2], 10)` to seconds.
The matcher below embeds that regex's behaviour on this pattern: leftmost
match (positions tried left to right), the greedy optional group tried
before the empty alternative, ordered alternation of the unit words, and
case-insensitive comparison.  For this particular pattern greedy `\d+` and
`\s*` need no backtracking: a digit is never a space, a space never starts
`to` or a unit word, so if the greedy reading fails at a position every
reading fails there. -/

/-- JavaScript `\s` (the whitespace class used by the time regex). -/
def isJsSpace (c : Char) : Bool :=
  c.toNat ∈ [0x9, 0xa, 0xb, 0xc, 0xd, 0x20, 0xa0, 0x1680, 0x2028, 0x2029, 0x202f, 0x205f, 0x3000, 0xfeff]
    || (0x2000 ≤ c.toNat && c.toNat ≤ 0x200a)

/-- Greedy `(\d+)`: the longest nonempty digit prefix and the rest. -/
def lexDigits (l : List Char) : Option (List Char × List Char) :=
  let ds := l.takeWhile Char.isDigit
  if ds.isEmpty then none else some (ds, l.dropWhile Char.isDigit)

/-- Greedy `\s*`. -/
def skipJsSpaces (l : List Char) : List Char := l.dropWhile isJsSpace

/-- Case-insensitive literal match (the regex carries the `i` flag);
returns the rest of the input on success. -/
def stripCaseInsensitive : List Char → List Char → Option (List Char)
  | [], l => some l
  | _ :: _, [] => none
  | p :: ps, c :: cs => if c.toLower = p.toLower then stripCaseInsensitive ps cs else none

/-- `parseInt(ds, 10)` on a string of decimal digits. -/
def digitsToNat (ds : List Char) : Nat :=
  ds.foldl (fun acc c => acc * 10 + (c.toNat - 48)) 0

/-- The alternation `(minute|minutes|hour|hours)`, tried in order; with no
pattern following the group, the first alternative that matches is the
capture, so the capture is a case-variant of `minute` or `hour`.  Returns
the captured text (`match[3]`, original case). -/
def matchTimeUnit (l : List Char) : Option String :=
  match stripCaseInsensitive "minute".data l with
  | some _ => some (String.mk (l.take 6))
  | none =>
    match stripCaseInsensitive "hour".data l with
    | some _ => some (String.mk (l.take 4))
    | none => none

/-- Attempt the whole pattern at one position: the optional group
`(?:(\d+)\s*to\s*)?` greedily first, then `(\d+)\s*(unit)`.  Returns
`(parseInt(match[2], 10), match[3])`. -/
def tryTimeMatchAt (l : List Char) : Option (Nat × String) :=
  let withGroup : Option (Nat × String) :=
    match lexDigits l with
    | none => none
    | some (_, r1) =>
      match stripCaseInsensitive "to".data (skipJsSpaces r1) with
      | none => none
      | some r2 =>
        match lexDigits (skipJsSpaces r2) with
        | none => none
        | some (d2, r3) =>
          match matchTimeUnit (skipJsSpaces r3) with
          | none => none
          | some u => some (digitsToNat d2, u)
  match withGroup with
  | some res => some res
  | none =>
    match lexDigits l with
    | none => none
    | some (d2, r1) =>
      match matchTimeUnit (skipJsSpaces r1) with
      | none => none
      | some u => some (digitsToNat d2, u)

/-- Leftmost match: `String.prototype.match` tries each start position from
the left and returns the first that succeeds. -/
def findTimeMatch : List Char → Option (Nat × String)
  | [] => none
  | c :: rest =>
    match tryTimeMatchAt (c :: rest) with
    | some m => some m
    | none => findTimeMatch rest

/-- `unit.toLowerCase().startsWith("hour")`, over the character list. -/
def unitIsHour (u : String) : Bool :=
  "hour".data.isPrefixOf (u.data.map Char.toLower)

/-- `parseInstructionForTime` (RecipeCard.tsx 14–30): the original text plus
an optional duration in seconds; `match[3].toLowerCase().startsWith("hour")`
selects the 3600 factor, otherwise 60. -/
def parseInstructionForTime (instruction : String) : String × Option Nat :=
  match findTimeMatch instruction.data with
  | some (value, u) =>
    (instruction, some (if unitIsHour u then value * 3600 else value * 60))
  | none => (instruction, none)

/-! ## Recipe Normalizer (`parseAndPrepareRecipes`, geminiService.ts 122–134) -/

/-- A raw recipe record as returned by the AI Gateway (the JSON schema's
required fields; no `id`, no image fields). -/
structure RawRecipe where
  recipeName : String
  description : String
  ingredients : List String
  instructions : List String
  imagePrompt : String
deriving Repr, DecidableEq

/-- `parsed.map(recipe => ({ ...recipe, id: crypto.randomUUID() }))`: each
element receives the next identifier from the supply `uuid`, consumed left
to right starting at index `n`. -/
def prepareWithIds (uuid : Nat → String) : Nat → List RawRecipe → List Recipe
  | _, [] => []
  | n, r :: rs =>
    { id := uuid n, recipeName := r.recipeName, description := r.description,
      ingredients := r.ingredients, instructions := r.instructions,
      imagePrompt := r.imagePrompt, imageUrl := none, imageError := none }
      :: prepareWithIds uuid (n + 1) rs

/-- `parseAndPrepareRecipes` after `JSON.parse` has produced a list (the
non-list case throws and is not part of this claim): `parsed.slice(0, 3)`
then the id-assigning map.  `base` is the index of the next fresh id. -/
def parseAndPrepareRecipes (uuid : Nat → String) (base : Nat)
    (parsed : List RawRecipe) : List Recipe :=
  prepareWithIds uuid base (parsed.take 3)

/-- Forgetting the normalizer's additions (for stating order preservation). -/
def rawOf (r : Recipe) : RawRecipe :=
  { recipeName := r.recipeName, description := r.description,
    ingredients := r.ingredients, instructions := r.instructions,
    imagePrompt := r.imagePrompt }

/-! ## AI Gateway fail-safe classifiers (geminiService.ts 50–77, 98–119) -/

/-- Substring test, `String.prototype.includes` over char lists. -/
def listContainsSub (needle : List Char) : List Char → Bool
  | [] => needle.isEmpty
  | c :: rest => needle.isPrefixOf (c :: rest) || listContainsSub needle rest

/-- `String.prototype.trim` over the character list: strip leading and
trailing whitespace. -/
def trimChars (l : List Char) : List Char :=
  ((l.dropWhile isJsSpace).reverse.dropWhile isJsSpace).reverse

/-- `response.text.trim().toLowerCase().includes('yes')`. -/
def includesYes (text : String) : Bool :=
  listContainsSub "yes".data ((trimChars text.data).map Char.toLower)

/-- `isFoodImage` (geminiService.ts 50–77).  The external
`ai.models.generateContent` call is the oracle: `.ok text` is a reply whose
`response.text` is `text`; `.error` is any transport or parse failure the
`await` throws.  The `try/catch` makes the function total with `false` as
the fail-safe value. -/
def isFoodImage (response : Except String String) : Bool :=
  match response with
  | .ok text => includesYes text
  | .error _ => false

/-- `validateRecipeImage` (geminiService.ts 98–119), same fail-safe shape
(the mime-type slicing of its argument happens inside the `try` and cannot
throw). -/
def validateRecipeImage (response : Except String String) : Bool :=
  match response with
  | .ok text => includesYes text
  | .error _ => false

/-! ## Saved Recipe Set (`handleSaveToggle`, App.tsx 228–237) -/

/-- `handleSaveToggle`: remove by id when saved, append otherwise. -/
def handleSaveToggle (prev : List Recipe) (recipeToToggle : Recipe) : List Recipe :=
  if prev.any fun r => r.id == recipeToToggle.id then
    prev.filter fun r => r.id != recipeToToggle.id
  else
    prev ++ [recipeToToggle]

/-- Pairwise-distinct identifiers in a saved list. -/
def NodupIds (l : List Recipe) : Prop := (l.map Recipe.id).Nodup

/-! ## `handleLoadMoreRecipes` (App.tsx 172–209) -/

/-- The app state fields `handleLoadMoreRecipes` reads and writes. -/
structure AppState where
  image : Option String
  recipes : Option (List Recipe)
  isLoading : Bool
  error : Option String
deriving Repr, DecidableEq

/-- The not-food advisory (App.tsx 153, 198). -/
def notFoodMessage : String :=
  "This doesn't appear to be food. Here are some popular recipe ideas instead!"

/-- `error?.includes("This doesn't appear to be food")` (App.tsx 173);
a `null` error is falsy. -/
def errorIncludesNotFood (error : Option String) : Bool :=
  match error with
  | some e => listContainsSub ("This doesn't appear to be food").data e.data
  | none => false

/-- `image.split(',')[1]` (empty when there is no comma, where JavaScript
would yield `undefined`). -/
def base64DataOf (image : String) : String := (image.splitOn ",").getD 1 ""

/-- `image.substring(image.indexOf(':') + 1, image.indexOf(';'))` with
JavaScript `substring` clamping (negative indices to 0, swapped bounds). -/
def mimeTypeOf (image : String) : String :=
  let cs := image.data
  let colonIdx : Int := match cs.findIdx? (· = ':') with
    | some i => (i : Int)
    | none => -1
  let semiIdx : Int := match cs.findIdx? (· = ';') with
    | some i => (i : Int)
    | none => -1
  let a := (min (max (colonIdx + 1) 0) cs.length).toNat
  let b := (min (max semiIdx 0) cs.length).toNat
  String.mk ((cs.take (max a b)).drop (min a b))

/-- The fetch oracles `handleLoadMoreRecipes` may call, plus the id supply
for the `map` at App.tsx 192. -/
structure LoadMoreEnv where
  getRecipesFromImage : String → String → List String → Except String (List RawRecipe)
  getGenericRecipes : List String → Except String (List RawRecipe)
  uuid : Nat → String

/-- `handleLoadMoreRecipes` (App.tsx 172–209) as a state transition.  It
reads `isGenericFallback` and the displayed names, sets
`isLoading = true`, `error = null`, `recipes = null`, and then either
returns early (`if (!image) return;`), fetches, or catches the fetch error.
The background image loops it dispatches afterwards are separate events
(`generateAndSetImageForRecipe` above). -/
def handleLoadMoreRecipes (env : LoadMoreEnv) (s : AppState) : AppState :=
  let isGenericFallback := errorIncludesNotFood s.error
  let existingRecipeNames := match s.recipes with
    | some rs => rs.map Recipe.recipeName
    | none => []
  let s1 : AppState := { s with isLoading := true, error := none, recipes := none }
  if isGenericFallback then
    match env.getGenericRecipes existingRecipeNames with
    | .ok recipesData =>
      { s1 with
          isLoading := false,
          recipes := some (prepareWithIds env.uuid 0 recipesData),
          error := some notFoodMessage }
    | .error msg => { s1 with isLoading := false, error := some msg }
  else
    match s1.image with
    | none => s1
    | some image =>
      match env.getRecipesFromImage (base64DataOf image) (mimeTypeOf image)
          existingRecipeNames with
      | .ok recipesData =>
        { s1 with
            isLoading := false,
            recipes := some (prepareWithIds env.uuid 0 recipesData) }
      | .error msg => { s1 with isLoading := false, error := some msg }

/-! ## Helper lemmas about the Image Acquisition Loop -/

/-- Each loop iteration increments `attempts` by exactly one. -/
theorem imageAttemptStep_attempts (gen : Nat → String → Except String String)
    (val : Nat → String → Bool) (s : LoopState) :
    (imageAttemptStep gen val s).attempts = s.attempts + 1 := by
  unfold imageAttemptStep
  cases gen (s.attempts + 1) s.currentRecipe.imagePrompt with
  | error e => rfl
  | ok i =>
    dsimp only
    split
    · rfl
    · split <;> rfl

/-- The guard `attempts < MAX_ATTEMPTS` keeps the counter at most 2. -/
theorem imageLoopGo_attempts_le (gen : Nat → String → Except String String)
    (val : Nat → String → Bool) :
    ∀ (fuel : Nat) (s : LoopState), s.attempts ≤ 2 →
      (imageLoopGo gen val fuel s).attempts ≤ 2
  | 0, _, h => h
  | fuel + 1, s, h => by
    rw [imageLoopGo]
    split
    · next hguard =>
      refine imageLoopGo_attempts_le gen val fuel _ ?_
      rw [imageAttemptStep_attempts]
      have h2 := hguard.2
      simp only [MAX_ATTEMPTS] at h2
      omega
    · exact h

/-! ## Claim C1 -/

/-- C1: For the Image Acquisition Loop run on one recipe, with a generator
that returns an image on every attempt: a validator that always returns
false gives exactly 2 attempts, no image and the failure flag set; a
validator that is false on attempt 1 and true on attempt 2 gives exactly 2
attempts, an image and `imageError = false`; a validator that is true on
attempt 1 gives exactly 1 attempt and an image.  Whatever the generator and
validator do, at most 2 attempts are made. -/
theorem imageLoop_attemptScenarios (gen : Nat → String → Except String String)
    (val : Nat → String → Bool) (recipe : Recipe)
    (hgen : ∀ n p, ∃ i, gen n p = Except.ok i) :
    ((∀ n i, val n i = false) →
      (runImageLoop gen val recipe).attempts = 2
      ∧ (finalRecipeState gen val recipe).imageUrl = none
      ∧ (finalRecipeState gen val recipe).imageError = some true)
    ∧ ((∀ i, val 1 i = false) → (∀ i, val 2 i = true) →
      (runImageLoop gen val recipe).attempts = 2
      ∧ (finalRecipeState gen val recipe).imageUrl.isSome = true
      ∧ (finalRecipeState gen val recipe).imageError = some false)
    ∧ ((∀ i, val 1 i = true) →
      (runImageLoop gen val recipe).attempts = 1
      ∧ (finalRecipeState gen val recipe).imageUrl.isSome = true
      ∧ (finalRecipeState gen val recipe).imageError = some false)
    ∧ (∀ (gen2 : Nat → String → Except String String) (val2 : Nat → String → Bool),
      (runImageLoop gen2 val2 recipe).attempts ≤ 2) := by
  obtain ⟨i1, h1⟩ := hgen 1 recipe.imagePrompt
  obtain ⟨i2, h2⟩ := hgen 2 (refinedPrompt recipe)
  refine ⟨fun hval => ?_, fun hv1 hv2 => ?_, fun hv1 => ?_,
    fun gen2 val2 => imageLoopGo_attempts_le gen2 val2 _ _ (by simp)⟩
  · have hrun : runImageLoop gen val recipe =
        ⟨{ recipe with imagePrompt := refinedPrompt recipe }, none, false, 2⟩ := by
      simp [runImageLoop, imageLoopGo, imageAttemptStep, MAX_ATTEMPTS, h1, h2, hval]
    refine ⟨by rw [hrun], ?_, ?_⟩ <;> simp [finalRecipeState, hrun]
  · have hrun : runImageLoop gen val recipe =
        ⟨{ recipe with imagePrompt := refinedPrompt recipe }, some i2, true, 2⟩ := by
      simp [runImageLoop, imageLoopGo, imageAttemptStep, MAX_ATTEMPTS, h1, h2, hv1, hv2]
    refine ⟨by rw [hrun], ?_, ?_⟩ <;> simp [finalRecipeState, hrun]
  · have hrun : runImageLoop gen val recipe = ⟨recipe, some i1, true, 1⟩ := by
      simp [runImageLoop, imageLoopGo, imageAttemptStep, MAX_ATTEMPTS, h1, hv1]
    refine ⟨by rw [hrun], ?_, ?_⟩ <;> simp [finalRecipeState, hrun]

/-- A concrete recipe used by the witnesses and counterexamples. -/
def demoRecipe : Recipe :=
  { id := "r1", recipeName := "Pasta Primavera", description := "A fresh plate of pasta",
    ingredients := ["pasta", "vegetables"], instructions := ["Boil pasta for 10 minutes"],
    imagePrompt := "A photorealistic plate of pasta primavera",
    imageUrl := none, imageError := none }

/-- Witness for C1: instantiated with a generator that always returns an
image and a validator that always rejects. -/
theorem imageLoop_attemptScenarios_witness :
    (runImageLoop (fun _ _ => Except.ok "img") (fun _ _ => false) demoRecipe).attempts = 2
    ∧ (finalRecipeState (fun _ _ => Except.ok "img") (fun _ _ => false) demoRecipe).imageUrl = none
    ∧ (finalRecipeState (fun _ _ => Except.ok "img") (fun _ _ => false) demoRecipe).imageError = some true :=
  (imageLoop_attemptScenarios (fun _ _ => Except.ok "img") (fun _ _ => false) demoRecipe
    (fun _ _ => ⟨"img", rfl⟩)).1 (fun _ _ => rfl)

/-! ## Claim C2

The claim says a `generateImage` error on *any* attempt ends the loop
rejected.  In the source the `catch` sits inside the `while` body and only
sets `isValid = false`, so an error on attempt 1 is retried (with the
prompt unchanged — the refinement branch is not reached) and attempt 2 can
still accept an image. -/

/-- A generator that throws on attempt 1 and returns an image afterwards. -/
def genErrorFirst : Nat → String → Except String String :=
  fun n _ =>
    if n = 1 then Except.error "Image generation failed to return an image."
    else Except.ok "img2"

/-- A validator that always accepts. -/
def valAlwaysTrue : Nat → String → Bool := fun _ _ => true

/-- C2 counterexample: generation raises on attempt 1 of `demoRecipe`, yet
the loop ends with the image set and `imageError = false` — not in the
rejected state (image unset, failure flag set) the claim requires. -/
theorem generationError_not_always_rejected :
    genErrorFirst 1 demoRecipe.imagePrompt
        = Except.error "Image generation failed to return an image."
    ∧ ¬((finalRecipeState genErrorFirst valAlwaysTrue demoRecipe).imageUrl = none
        ∧ (finalRecipeState genErrorFirst valAlwaysTrue demoRecipe).imageError = some true) :=
  ⟨rfl, by decide⟩

/-- C2 amended: a generation error (or validation failure) on the *final*
attempt ends the loop rejected — image unset, failure flag set; the
hypotheses cover a generator that raises, since then the `.ok` premise is
vacuous.  A generation error on attempt 1 alone does not reject: the loop
retries with the unchanged prompt and, if attempt 2 generates and
validates, ends accepted. -/
theorem imageLoop_rejection_behaviour (gen : Nat → String → Except String String)
    (val : Nat → String → Bool) (recipe : Recipe) :
    ((∀ i, gen 1 recipe.imagePrompt = Except.ok i → val 1 i = false) →
     (∀ p i, gen 2 p = Except.ok i → val 2 i = false) →
      (runImageLoop gen val recipe).attempts = 2
      ∧ (finalRecipeState gen val recipe).imageUrl = none
      ∧ (finalRecipeState gen val recipe).imageError = some true)
    ∧ (∀ e i, gen 1 recipe.imagePrompt = Except.error e →
        gen 2 recipe.imagePrompt = Except.ok i → val 2 i = true →
        (finalRecipeState gen val recipe).imageUrl = some i
        ∧ (finalRecipeState gen val recipe).imageError = some false
        ∧ (finalRecipeState gen val recipe).imagePrompt = recipe.imagePrompt) := by
  constructor
  · intro hv1 hv2
    cases h1 : gen 1 recipe.imagePrompt with
    | error e =>
      cases h2 : gen 2 recipe.imagePrompt with
      | error e2 =>
        have hrun : runImageLoop gen val recipe = ⟨recipe, none, false, 2⟩ := by
          simp [runImageLoop, imageLoopGo, imageAttemptStep, MAX_ATTEMPTS, h1, h2]
        refine ⟨by rw [hrun], ?_, ?_⟩ <;> simp [finalRecipeState, hrun]
      | ok i2 =>
        have hrun : runImageLoop gen val recipe = ⟨recipe, none, false, 2⟩ := by
          simp [runImageLoop, imageLoopGo, imageAttemptStep, MAX_ATTEMPTS, h1, h2,
            hv2 recipe.imagePrompt i2 h2]
        refine ⟨by rw [hrun], ?_, ?_⟩ <;> simp [finalRecipeState, hrun]
    | ok i1 =>
      have hval1 := hv1 i1 h1
      cases h2 : gen 2 (refinedPrompt recipe) with
      | error e2 =>
        have hrun : runImageLoop gen val recipe =
            ⟨{ recipe with imagePrompt := refinedPrompt recipe }, none, false, 2⟩ := by
          simp [runImageLoop, imageLoopGo, imageAttemptStep, MAX_ATTEMPTS, h1, h2, hval1]
        refine ⟨by rw [hrun], ?_, ?_⟩ <;> simp [finalRecipeState, hrun]
      | ok i2 =>
        have hrun : runImageLoop gen val recipe =
            ⟨{ recipe with imagePrompt := refinedPrompt recipe }, none, false, 2⟩ := by
          simp [runImageLoop, imageLoopGo, imageAttemptStep, MAX_ATTEMPTS, h1, h2, hval1,
            hv2 (refinedPrompt recipe) i2 h2]
        refine ⟨by rw [hrun], ?_, ?_⟩ <;> simp [finalRecipeState, hrun]
  · intro e i h1 h2 hv
    have hrun : runImageLoop gen val recipe = ⟨recipe, some i, true, 2⟩ := by
      simp [runImageLoop, imageLoopGo, imageAttemptStep, MAX_ATTEMPTS, h1, h2, hv]
    refine ⟨?_, ?_, ?_⟩ <;> simp [finalRecipeState, hrun]

/-- Witness for C2's amended theorem: both parts instantiated — the
always-failing generator rejects, and `genErrorFirst`/`valAlwaysTrue`
recover on attempt 2. -/
theorem imageLoop_rejection_behaviour_witness :
    ((runImageLoop (fun _ _ => Except.error "down") (fun _ _ => false) demoRecipe).attempts = 2
      ∧ (finalRecipeState (fun _ _ => Except.error "down") (fun _ _ => false) demoRecipe).imageUrl = none
      ∧ (finalRecipeState (fun _ _ => Except.error "down") (fun _ _ => false) demoRecipe).imageError = some true)
    ∧ ((finalRecipeState genErrorFirst valAlwaysTrue demoRecipe).imageUrl = some "img2"
      ∧ (finalRecipeState genErrorFirst valAlwaysTrue demoRecipe).imageError = some false
      ∧ (finalRecipeState genErrorFirst valAlwaysTrue demoRecipe).imagePrompt = demoRecipe.imagePrompt) :=
  ⟨(imageLoop_rejection_behaviour (fun _ _ => Except.error "down") (fun _ _ => false)
      demoRecipe).1 (fun _ h => Except.noConfusion h) (fun _ _ h => Except.noConfusion h),
   (imageLoop_rejection_behaviour genErrorFirst valAlwaysTrue demoRecipe).2
      "Image generation failed to return an image." "img2" rfl rfl rfl⟩

/-! ## Claim C5 -/

/-- At most one of {image present, failure flag set} holds. -/
def imageStateConsistent (r : Recipe) : Prop :=
  ¬(r.imageUrl.isSome = true ∧ r.imageError = some true)

/-- C5: whatever the generator and validator do, the settled recipe never
has both its image set and its failure flag set (line 96 writes
`imageUrl: isValid ? imageUrl : undefined, imageError: !isValid`), and the
keyed update of lines 99–100 preserves the invariant across a collection
that already satisfies it. -/
theorem settle_imageStateConsistent (gen : Nat → String → Except String String)
    (val : Nat → String → Bool) (recipe : Recipe) :
    imageStateConsistent (finalRecipeState gen val recipe)
    ∧ ∀ (l : List Recipe), (∀ x ∈ l, imageStateConsistent x) →
        ∀ x ∈ settleUpdate (finalRecipeState gen val recipe) l, imageStateConsistent x := by
  have hfinal : imageStateConsistent (finalRecipeState gen val recipe) := by
    unfold finalRecipeState imageStateConsistent
    cases hv : (runImageLoop gen val recipe).isValid <;> simp [hv]
  refine ⟨hfinal, fun l hl x hx => ?_⟩
  obtain ⟨y, hy, hxy⟩ := List.mem_map.mp hx
  by_cases h : y.id = (finalRecipeState gen val recipe).id
  · rw [if_pos h] at hxy; exact hxy ▸ hfinal
  · rw [if_neg h] at hxy; exact hxy ▸ hl y hy

/-- Witness for C5: the invariant holds on the settled demo recipe and on
the updated one-element collection. -/
theorem settle_imageStateConsistent_witness :
    imageStateConsistent (finalRecipeState genErrorFirst valAlwaysTrue demoRecipe)
    ∧ ∀ x ∈ settleUpdate (finalRecipeState genErrorFirst valAlwaysTrue demoRecipe) [demoRecipe],
        imageStateConsistent x :=
  ⟨(settle_imageStateConsistent genErrorFirst valAlwaysTrue demoRecipe).1,
   (settle_imageStateConsistent genErrorFirst valAlwaysTrue demoRecipe).2 [demoRecipe]
     (by intro x hx; simp at hx; subst hx; simp [imageStateConsistent, demoRecipe])⟩

/-! ## Claim C6

The claim says the settle update changes only the image field and the
failure flag of the matching recipe.  In the source the settled value is
`{ ...currentRecipe, ... }` where `currentRecipe.imagePrompt` was
overwritten by the refinement at line 88, so after a failed first
validation the *image prompt* of the displayed recipe changes too.  All
other attributes, and all recipes with other identifiers, are untouched. -/

/-- A generator that always returns an image. -/
def genAlwaysOk : Nat → String → Except String String := fun _ _ => Except.ok "imgA"

/-- A validator that rejects attempt 1 and accepts attempt 2. -/
def valFalseThenTrue : Nat → String → Bool := fun n _ => n == 2

/-- C6 counterexample: with a validator that fails once, the recipe stored
back into the displayed collection carries the refined image prompt, not
the original one — the settle changes an attribute other than the image
field and the failure flag. -/
theorem settle_changes_imagePrompt :
    (settleUpdate (finalRecipeState genAlwaysOk valFalseThenTrue demoRecipe)
        [demoRecipe]).map Recipe.imagePrompt ≠ [demoRecipe.imagePrompt] := by
  decide

/-- `c` agrees with `r` on everything other than the image fields, except
possibly a once-refined prompt. -/
def corePreserved (r c : Recipe) : Prop :=
  c.id = r.id ∧ c.recipeName = r.recipeName ∧ c.description = r.description
  ∧ c.ingredients = r.ingredients ∧ c.instructions = r.instructions
  ∧ (c.imagePrompt = r.imagePrompt ∨ c.imagePrompt = refinedPrompt r)

/-- One loop iteration preserves `corePreserved`: the only write to
`currentRecipe` is the refinement, which rewrites the prompt from the
unchanged name and description. -/
theorem imageAttemptStep_corePreserved (gen : Nat → String → Except String String)
    (val : Nat → String → Bool) (r : Recipe) (s : LoopState)
    (h : corePreserved r s.currentRecipe) :
    corePreserved r (imageAttemptStep gen val s).currentRecipe := by
  obtain ⟨hid, hnm, hds, hig, his, hip⟩ := h
  unfold imageAttemptStep
  cases gen (s.attempts + 1) s.currentRecipe.imagePrompt with
  | error e => exact ⟨hid, hnm, hds, hig, his, hip⟩
  | ok i =>
    dsimp only
    split
    · exact ⟨hid, hnm, hds, hig, his, hip⟩
    · split
      · refine ⟨hid, hnm, hds, hig, his, Or.inr ?_⟩
        show refinedPrompt s.currentRecipe = refinedPrompt r
        unfold refinedPrompt
        rw [hnm, hds]
      · exact ⟨hid, hnm, hds, hig, his, hip⟩

/-- The loop never edits identity, name, description, ingredients or
instructions of `currentRecipe`, and its prompt is either the original or
the single refined variant. -/
theorem imageLoopGo_corePreserved (gen : Nat → String → Except String String)
    (val : Nat → String → Bool) (r : Recipe) :
    ∀ (fuel : Nat) (s : LoopState), corePreserved r s.currentRecipe →
      corePreserved r (imageLoopGo gen val fuel s).currentRecipe
  | 0, _, h => h
  | fuel + 1, s, h => by
    rw [imageLoopGo]
    split
    · exact imageLoopGo_corePreserved gen val r fuel _
        (imageAttemptStep_corePreserved gen val r s h)
    · exact h

/-- C6 amended: when the loop settles for recipe X, every entry of the
displayed collection with a different identifier is unchanged; the entry
with identifier X is replaced by the settled recipe, which keeps X's
identity, name, description, ingredients and instructions, while its image
prompt is the original or — if a refinement occurred — the refined
variant.  (The original claim that the image prompt is always unchanged is
refuted by `settle_changes_imagePrompt`.) -/
theorem settle_frameEffect (gen : Nat → String → Except String String)
    (val : Nat → String → Bool) (recipe : Recipe) (l : List Recipe) :
    corePreserved recipe (finalRecipeState gen val recipe)
    ∧ (settleUpdate (finalRecipeState gen val recipe) l).length = l.length
    ∧ ∀ (i : Nat) (hi : i < l.length),
        ((l.get ⟨i, hi⟩).id ≠ recipe.id →
          (settleUpdate (finalRecipeState gen val recipe) l).get
            ⟨i, by simpa [settleUpdate] using hi⟩ = l.get ⟨i, hi⟩)
        ∧ ((l.get ⟨i, hi⟩).id = recipe.id →
          (settleUpdate (finalRecipeState gen val recipe) l).get
            ⟨i, by simpa [settleUpdate] using hi⟩ = finalRecipeState gen val recipe) := by
  have hcore : corePreserved recipe (finalRecipeState gen val recipe) := by
    have h := imageLoopGo_corePreserved gen val recipe (MAX_ATTEMPTS + 1)
      { currentRecipe := recipe, imageUrl := none, isValid := false, attempts := 0 }
      ⟨rfl, rfl, rfl, rfl, rfl, Or.inl rfl⟩
    exact h
  have hid : (finalRecipeState gen val recipe).id = recipe.id := hcore.1
  refine ⟨hcore, by simp [settleUpdate], fun i hi => ?_⟩
  have hget : (settleUpdate (finalRecipeState gen val recipe) l).get
      ⟨i, by simpa [settleUpdate] using hi⟩
      = if (l.get ⟨i, hi⟩).id = (finalRecipeState gen val recipe).id
        then finalRecipeState gen val recipe else l.get ⟨i, hi⟩ := by
    simp [settleUpdate]
  constructor
  · intro hne
    rw [hget, if_neg (by rw [hid]; exact hne)]
  · intro heq
    rw [hget, if_pos (by rw [hid]; exact heq)]

/-- A sibling recipe with a different identifier. -/
def recipeB : Recipe :=
  { id := "r2", recipeName := "Tomato Soup", description := "A warm soup",
    ingredients := ["tomatoes"], instructions := ["Simmer for 20 minutes"],
    imagePrompt := "A bowl of tomato soup", imageUrl := none, imageError := none }

/-- Witness for C6's amended theorem: in the two-element collection the
sibling at index 1 is untouched and index 0 receives the settled recipe. -/
theorem settle_frameEffect_witness :
    corePreserved demoRecipe (finalRecipeState genAlwaysOk valFalseThenTrue demoRecipe)
    ∧ (settleUpdate (finalRecipeState genAlwaysOk valFalseThenTrue demoRecipe)
        [demoRecipe, recipeB]).get ⟨1, by simp [settleUpdate]⟩ = recipeB
    ∧ (settleUpdate (finalRecipeState genAlwaysOk valFalseThenTrue demoRecipe)
        [demoRecipe, recipeB]).get ⟨0, by simp [settleUpdate]⟩
      = finalRecipeState genAlwaysOk valFalseThenTrue demoRecipe :=
  ⟨(settle_frameEffect genAlwaysOk valFalseThenTrue demoRecipe [demoRecipe, recipeB]).1,
   ((settle_frameEffect genAlwaysOk valFalseThenTrue demoRecipe
      [demoRecipe, recipeB]).2.2 1 (by decide)).1 (by decide),
   ((settle_frameEffect genAlwaysOk valFalseThenTrue demoRecipe
      [demoRecipe, recipeB]).2.2 0 (by decide)).2 (by decide)⟩

/-! ## Claim C3 -/

/-- C3: the Instruction Time Parser returns the original text unchanged with
an optional duration in seconds; no regex match yields no duration; a match
converts the second numeric group by 3600 for hours and 60 for minutes; and
the four specified examples evaluate as stated (in `"Let rest 5 to 10
minutes"` the second number wins). -/
theorem parseInstructionForTime_spec :
    (∀ s : String, (parseInstructionForTime s).1 = s)
    ∧ (∀ s : String, findTimeMatch s.data = none → (parseInstructionForTime s).2 = none)
    ∧ (∀ (s : String) (value : Nat) (u : String), findTimeMatch s.data = some (value, u) →
        (parseInstructionForTime s).2
          = some (if unitIsHour u then value * 3600 else value * 60))
    ∧ parseInstructionForTime "Simmer for 10 minutes" = ("Simmer for 10 minutes", some 600)
    ∧ parseInstructionForTime "Bake for 1 hour" = ("Bake for 1 hour", some 3600)
    ∧ parseInstructionForTime "Let rest 5 to 10 minutes" = ("Let rest 5 to 10 minutes", some 600)
    ∧ parseInstructionForTime "Add salt to taste" = ("Add salt to taste", none) := by
  refine ⟨fun s => ?_, fun s h => ?_, fun s value u h => ?_, by decide, by decide, by decide, by decide⟩
  · unfold parseInstructionForTime
    cases findTimeMatch s.data with
    | none => rfl
    | some m => cases m; rfl
  · unfold parseInstructionForTime
    rw [h]
  · unfold parseInstructionForTime
    rw [h]

/-- Witness for C3: hypotheses of the conditional conjuncts discharged on
concrete instructions. -/
theorem parseInstructionForTime_spec_witness :
    findTimeMatch ("Add salt to taste").data = none
    ∧ (parseInstructionForTime "Add salt to taste").2 = none
    ∧ findTimeMatch ("Bake for 1 hour").data = some (1, "hour")
    ∧ (parseInstructionForTime "Bake for 1 hour").2 = some 3600 :=
  ⟨by decide,
   parseInstructionForTime_spec.2.1 "Add salt to taste" (by decide),
   by decide,
   by simpa using parseInstructionForTime_spec.2.2.1 "Bake for 1 hour" 1 "hour" (by decide)⟩

/-! ## Claim C4 -/

/-- Every identifier in a prepared batch comes from the supply at or after
the starting index. -/
theorem prepareWithIds_mem_id (uuid : Nat → String) :
    ∀ (n : Nat) (l : List RawRecipe) (x : String),
      x ∈ (prepareWithIds uuid n l).map Recipe.id → ∃ k, n ≤ k ∧ x = uuid k
  | _, [], _, h => absurd h (by simp [prepareWithIds])
  | n, r :: rs, x, h => by
    rw [prepareWithIds] at h
    simp only [List.map_cons, List.mem_cons] at h
    cases h with
    | inl h => exact ⟨n, le_rfl, h⟩
    | inr h =>
      obtain ⟨k, hk, hx⟩ := prepareWithIds_mem_id uuid (n + 1) rs x h
      exact ⟨k, by omega, hx⟩

/-- With an injective supply, prepared identifiers are pairwise distinct. -/
theorem prepareWithIds_nodup (uuid : Nat → String) (huuid : Function.Injective uuid) :
    ∀ (n : Nat) (l : List RawRecipe), ((prepareWithIds uuid n l).map Recipe.id).Nodup
  | _, [] => by simp [prepareWithIds]
  | n, r :: rs => by
    rw [prepareWithIds]
    simp only [List.map_cons, List.nodup_cons]
    refine ⟨fun hmem => ?_, prepareWithIds_nodup uuid huuid (n + 1) rs⟩
    obtain ⟨k, hk, hx⟩ := prepareWithIds_mem_id uuid (n + 1) rs (uuid n) hmem
    have := huuid hx
    omega

/-- Stripping the normalizer's additions recovers the raw input. -/
theorem prepareWithIds_rawOf (uuid : Nat → String) :
    ∀ (n : Nat) (l : List RawRecipe), (prepareWithIds uuid n l).map rawOf = l
  | _, [] => rfl
  | n, r :: rs => by
    rw [prepareWithIds]
    simp only [List.map_cons, prepareWithIds_rawOf uuid (n + 1) rs]
    rfl

/-- The normalizer leaves both image fields unset. -/
theorem prepareWithIds_imageFields (uuid : Nat → String) :
    ∀ (n : Nat) (l : List RawRecipe) (x : Recipe), x ∈ prepareWithIds uuid n l →
      x.imageUrl = none ∧ x.imageError = none
  | _, [], _, h => absurd h (by simp [prepareWithIds])
  | n, r :: rs, x, h => by
    rw [prepareWithIds] at h
    rcases List.mem_cons.mp h with h | h
    · subst h; exact ⟨rfl, rfl⟩
    · exact prepareWithIds_imageFields uuid (n + 1) rs x h

/-- C4: on a gateway list longer than 3 and an injective (globally fresh)
identifier supply, `parseAndPrepareRecipes` yields exactly the first 3
entries in their original order, each with a fresh identifier unique within
the batch and with no image field set. -/
theorem parseAndPrepareRecipes_spec (uuid : Nat → String) (base : Nat)
    (parsed : List RawRecipe) (huuid : Function.Injective uuid)
    (hlen : 3 < parsed.length) :
    (parseAndPrepareRecipes uuid base parsed).length = 3
    ∧ (parseAndPrepareRecipes uuid base parsed).map rawOf = parsed.take 3
    ∧ ((parseAndPrepareRecipes uuid base parsed).map Recipe.id).Nodup
    ∧ ∀ x ∈ parseAndPrepareRecipes uuid base parsed,
        x.imageUrl = none ∧ x.imageError = none := by
  have hlen3 : (parsed.take 3).length = 3 := by
    rw [List.length_take]
    omega
  refine ⟨?_, prepareWithIds_rawOf uuid base (parsed.take 3),
    prepareWithIds_nodup uuid huuid base (parsed.take 3),
    prepareWithIds_imageFields uuid base (parsed.take 3)⟩
  have := congrArg List.length (prepareWithIds_rawOf uuid base (parsed.take 3))
  rw [List.length_map] at this
  rw [parseAndPrepareRecipes, this, hlen3]

/-- A raw recipe for the C4 witness. -/
def rawDemo (k : Nat) : RawRecipe :=
  { recipeName := "Dish " ++ String.mk (List.replicate k 'x'),
    description := "d", ingredients := ["i"], instructions := ["s"],
    imagePrompt := "p" }

/-- An injective identifier supply for the witnesses: the index in unary. -/
def uuidSupply (n : Nat) : String := String.mk (List.replicate n 'u')

/-- The witness supply is injective (lengths differ). -/
theorem uuidSupply_injective : Function.Injective uuidSupply := by
  intro a b h
  have := congrArg (fun s => s.data.length) h
  simpa [uuidSupply] using this

/-- Witness for C4: a four-element gateway list is truncated to its first
three entries, with distinct fresh identifiers and no image fields. -/
theorem parseAndPrepareRecipes_spec_witness :
    (parseAndPrepareRecipes uuidSupply 0 [rawDemo 0, rawDemo 1, rawDemo 2, rawDemo 3]).length = 3
    ∧ (parseAndPrepareRecipes uuidSupply 0 [rawDemo 0, rawDemo 1, rawDemo 2, rawDemo 3]).map rawOf
        = [rawDemo 0, rawDemo 1, rawDemo 2]
    ∧ ((parseAndPrepareRecipes uuidSupply 0
        [rawDemo 0, rawDemo 1, rawDemo 2, rawDemo 3]).map Recipe.id).Nodup := by
  obtain ⟨h1, h2, h3, _⟩ := parseAndPrepareRecipes_spec uuidSupply 0
    [rawDemo 0, rawDemo 1, rawDemo 2, rawDemo 3] uuidSupply_injective (by simp)
  exact ⟨h1, by rw [h2]; rfl, h3⟩

/-! ## Claim C7 -/

/-- C7: `isFoodImage` and `validateRecipeImage` are total boolean
functions of the model call's outcome — the `try/catch` means no failure
escapes — and any internal failure yields `false`; a successful reply is
classified by the yes-substring test, as in the source. -/
theorem classifiers_failSafe :
    (∀ e : String, isFoodImage (Except.error e) = false)
    ∧ (∀ e : String, validateRecipeImage (Except.error e) = false)
    ∧ (∀ t : String, isFoodImage (Except.ok t) = includesYes t)
    ∧ (∀ t : String, validateRecipeImage (Except.ok t) = includesYes t)
    ∧ isFoodImage (Except.ok " Yes, it is food ") = true
    ∧ isFoodImage (Except.ok "No.") = false
    ∧ validateRecipeImage (Except.error "network down") = false :=
  ⟨fun _ => rfl, fun _ => rfl, fun _ => rfl, fun _ => rfl, by decide, by decide, rfl⟩

/-! ## Claim C8

The claim says double-toggling always restores the saved set.  Unsaving
removes the entry wherever it sits and re-saving appends at the end, so
when the recipe was already saved the list comes back reordered (and, if
the stored entry differed from the toggled value, changed): only the
not-yet-saved case restores the state exactly.  The no-duplicate part of
the claim does hold. -/

/-- C8 counterexample: `demoRecipe` is saved first of two; toggling it
twice yields `[recipeB, demoRecipe]`, not the original list. -/
theorem saveToggle_not_involutive :
    handleSaveToggle (handleSaveToggle [demoRecipe, recipeB] demoRecipe) demoRecipe
      ≠ [demoRecipe, recipeB] := by
  decide

/-- One toggle keeps identifiers pairwise distinct. -/
theorem handleSaveToggle_nodup (prev : List Recipe) (r : Recipe)
    (h : NodupIds prev) : NodupIds (handleSaveToggle prev r) := by
  unfold handleSaveToggle NodupIds
  split
  · exact List.Nodup.sublist ((List.filter_sublist prev).map Recipe.id) h
  · next hany =>
    rw [List.map_append]
    rw [List.nodup_append]
    refine ⟨h, by simp, ?_⟩
    intro a ha hb
    obtain ⟨x, hx, hxa⟩ := List.mem_map.mp ha
    simp only [List.map_cons, List.map_nil, List.mem_singleton] at hb
    have : prev.any (fun y => y.id == r.id) = true :=
      List.any_eq_true.mpr ⟨x, hx, by simp [hxa, hb]⟩
    exact hany this

/-- C8 amended: toggling a recipe twice restores the saved list exactly
when no entry with its identifier was saved; when one was, the double
toggle removes it and appends the toggled recipe at the end (the set of
entries is preserved only up to that reordering, when the stored entry
equals the toggled one).  After any sequence of toggles from a
duplicate-free list the saved list has no two entries with the same
identifier. -/
theorem handleSaveToggle_spec :
    (∀ (prev : List Recipe) (r : Recipe), (∀ x ∈ prev, x.id ≠ r.id) →
      handleSaveToggle (handleSaveToggle prev r) r = prev)
    ∧ (∀ (prev : List Recipe) (r : Recipe) (x : Recipe), x ∈ prev → x.id = r.id →
      handleSaveToggle (handleSaveToggle prev r) r
        = (prev.filter fun y => y.id != r.id) ++ [r])
    ∧ (∀ (prev rs : List Recipe), NodupIds prev →
        NodupIds (rs.foldl handleSaveToggle prev)) := by
  have hfilter_skips : ∀ (prev : List Recipe) (r : Recipe),
      ((prev.filter fun y => y.id != r.id).any fun y => y.id == r.id) = false := by
    intro prev r
    rw [List.any_eq_false]
    intro y hy
    have := (List.mem_filter.mp hy).2
    simp only [bne_iff_ne, ne_eq] at this
    simp [this]
  refine ⟨fun prev r h => ?_, fun prev r x hx hid => ?_, fun prev rs => ?_⟩
  · have hany : (prev.any fun x => x.id == r.id) = false := by
      rw [List.any_eq_false]
      intro x hx
      simp [h x hx]
    have h1 : handleSaveToggle prev r = prev ++ [r] := by
      simp [handleSaveToggle, hany]
    rw [h1]
    have hany2 : ((prev ++ [r]).any fun x => x.id == r.id) = true := by
      rw [List.any_append]
      simp
    have hkeep : (prev.filter fun y => y.id != r.id) = prev :=
      List.filter_eq_self.mpr (fun x hx => by simpa using h x hx)
    simp [handleSaveToggle, hany2, List.filter_append, hkeep]
  · have hany : (prev.any fun y => y.id == r.id) = true :=
      List.any_eq_true.mpr ⟨x, hx, by simp [hid]⟩
    have h1 : handleSaveToggle prev r = prev.filter fun y => y.id != r.id := by
      simp [handleSaveToggle, hany]
    rw [h1]
    simp [handleSaveToggle, hfilter_skips prev r]
  · induction rs generalizing prev with
    | nil => exact fun h => h
    | cons a as ih =>
      intro h
      exact ih (handleSaveToggle prev a) (handleSaveToggle_nodup prev a h)

/-- Witness for C8's amended theorem: all three parts at concrete lists —
toggle-toggle restores `[recipeB]`, toggle-toggle of a saved head moves it
to the end, and a toggle sequence from the empty list keeps ids distinct. -/
theorem handleSaveToggle_spec_witness :
    handleSaveToggle (handleSaveToggle [recipeB] demoRecipe) demoRecipe = [recipeB]
    ∧ handleSaveToggle (handleSaveToggle [demoRecipe, recipeB] demoRecipe) demoRecipe
        = [recipeB, demoRecipe]
    ∧ NodupIds ([demoRecipe, demoRecipe, recipeB].foldl handleSaveToggle []) := by
  refine ⟨handleSaveToggle_spec.1 [recipeB] demoRecipe (by decide), ?_, ?_⟩
  · rw [handleSaveToggle_spec.2.1 [demoRecipe, recipeB] demoRecipe demoRecipe
      (by decide) rfl]
    decide
  · exact handleSaveToggle_spec.2.2 [] [demoRecipe, demoRecipe, recipeB]
      (by simp [NodupIds])

/-! ## Claim C10 -/

/-- C10: invoked with no image and with an error that does not contain the
not-food fallback text, `handleLoadMoreRecipes` hits `if (!image) return;`
*after* `setIsLoading(true)`, `setError(null)` and `setRecipes(null)` have
run: the resulting state has the loading flag set, no displayed recipes and
no error.  No fetch occurs — the result does not depend on the fetch
oracles — and, the function having returned, nothing in it ever releases
the loading flag. -/
theorem handleLoadMore_earlyReturn (env env2 : LoadMoreEnv) (s : AppState)
    (himg : s.image = none) (hfb : errorIncludesNotFood s.error = false) :
    handleLoadMoreRecipes env s
      = { s with isLoading := true, recipes := none, error := none }
    ∧ handleLoadMoreRecipes env s = handleLoadMoreRecipes env2 s := by
  have h : ∀ e : LoadMoreEnv, handleLoadMoreRecipes e s
      = { s with isLoading := true, recipes := none, error := none } := by
    intro e
    unfold handleLoadMoreRecipes
    rw [hfb]
    simp only [Bool.false_eq_true, if_false, himg]
  exact ⟨h env, (h env).trans (h env2).symm⟩

/-- A fetch environment whose oracles always succeed, for the witness. -/
def envDemo : LoadMoreEnv :=
  { getRecipesFromImage := fun _ _ _ => Except.ok [rawDemo 0],
    getGenericRecipes := fun _ => Except.ok [rawDemo 1],
    uuid := uuidSupply }

/-- A fetch environment whose oracles always fail, for the witness. -/
def envDemoFailing : LoadMoreEnv :=
  { getRecipesFromImage := fun _ _ _ => Except.error "gateway down",
    getGenericRecipes := fun _ => Except.error "gateway down",
    uuid := uuidSupply }

/-- The stuck state of the C10 witness: a saved recipe being viewed (so
recipes are displayed without any captured image) and no error. -/
def stuckState : AppState :=
  { image := none, recipes := some [demoRecipe], isLoading := false, error := none }

/-- Witness for C10: from `stuckState` the handler leaves the loading flag
set with no recipes and no error, whichever oracles are supplied. -/
theorem handleLoadMore_earlyReturn_witness :
    handleLoadMoreRecipes envDemo stuckState
      = { image := none, recipes := none, isLoading := true, error := none }
    ∧ handleLoadMoreRecipes envDemo stuckState
      = handleLoadMoreRecipes envDemoFailing stuckState :=
  handleLoadMore_earlyReturn envDemo envDemoFailing stuckState rfl rfl

/-! ## Shareable links (C9): JSON serialization

`generateShareableLink` (App.tsx 253–257) does `btoa(JSON.stringify(recipe))`
and the load-time effect (App.tsx 53–68) does `JSON.parse(atob(param))`.
The embedding below implements `JSON.stringify` for `Recipe` values and
`JSON.parse` for the JSON fragment such values serialize to (objects whose
values are strings, booleans, `null` or arrays of strings — recipes contain
no numbers and no nested objects).  Key order follows the object built by
the app (schema fields, then `id`, then the optional image fields); the
round trip does not depend on it.  Strings are escaped exactly as
`JSON.stringify` escapes them: `"`/`\` with a backslash, the short control
escapes, other code points below 0x20 as `\u00xx`, everything else as-is. -/

/-- Lowercase hexadecimal digit. -/
def hexDigitChar (n : Nat) : Char :=
  if n < 10 then Char.ofNat (48 + n) else Char.ofNat (87 + n)

/-- The value of one hexadecimal digit (JSON.parse accepts both cases). -/
def hexVal (c : Char) : Option Nat :=
  if '0' ≤ c ∧ c ≤ '9' then some (c.toNat - 48)
  else if 'a' ≤ c ∧ c ≤ 'f' then some (c.toNat - 87)
  else if 'A' ≤ c ∧ c ≤ 'F' then some (c.toNat - 55)
  else none

/-- How `JSON.stringify` escapes one character inside a string literal. -/
def jsonEscapeChar (c : Char) : List Char :=
  if c = '\"' then ['\\', '\"']
  else if c = '\\' then ['\\', '\\']
  else if c = Char.ofNat 8 then ['\\', 'b']
  else if c = '\t' then ['\\', 't']
  else if c = '\n' then ['\\', 'n']
  else if c = Char.ofNat 12 then ['\\', 'f']
  else if c = '\r' then ['\\', 'r']
  else if c.toNat < 32 then
    ['\\', 'u', '0', '0', hexDigitChar (c.toNat / 16), hexDigitChar (c.toNat % 16)]
  else [c]

/-- Escape a whole string body. -/
def escapeChars : List Char → List Char
  | [] => []
  | c :: cs => jsonEscapeChar c ++ escapeChars cs

/-- A JSON string literal, quotes included. -/
def printJString (s : String) : List Char :=
  '\"' :: (escapeChars s.data ++ ['\"'])

/-- The JSON values occurring in a serialized `Recipe`. -/
inductive JVal where
  | s (v : String)
  | b (v : Bool)
  | jnull
  | arr (elems : List String)
deriving Repr, DecidableEq

/-- Comma-separated concatenation. -/
def sepComma : List (List Char) → List Char
  | [] => []
  | [x] => x
  | x :: y :: ys => x ++ ',' :: sepComma (y :: ys)

/-- Print one JSON value. -/
def printJVal : JVal → List Char
  | .s v => printJString v
  | .b true => ['t', 'r', 'u', 'e']
  | .b false => ['f', 'a', 'l', 's', 'e']
  | .jnull => ['n', 'u', 'l', 'l']
  | .arr xs => '[' :: (sepComma (xs.map printJString) ++ [']'])

/-- Print one `key: value` member. -/
def printPair (kv : String × JVal) : List Char :=
  printJString kv.1 ++ ':' :: printJVal kv.2

/-- The members of `JSON.stringify(recipe)`, in the app's insertion order;
an `undefined` optional field is omitted, as `JSON.stringify` omits it. -/
def recipePairs (r : Recipe) : List (String × JVal) :=
  [("recipeName", JVal.s r.recipeName), ("description", JVal.s r.description),
   ("ingredients", JVal.arr r.ingredients), ("instructions", JVal.arr r.instructions),
   ("imagePrompt", JVal.s r.imagePrompt), ("id", JVal.s r.id)]
  ++ (match r.imageUrl with
      | some u => [("imageUrl", JVal.s u)]
      | none => [])
  ++ (match r.imageError with
      | some e => [("imageError", JVal.b e)]
      | none => [])

/-- `JSON.stringify(recipe)` as a character list. -/
def stringifyRecipe (r : Recipe) : List Char :=
  '{' :: (sepComma ((recipePairs r).map printPair) ++ ['}'])

/-- The character a short escape code stands for (`\/` is legal JSON). -/
def escapeCodeChar : Char → Option Char
  | '\"' => some '\"'
  | '\\' => some '\\'
  | '/' => some '/'
  | 'b' => some (Char.ofNat 8)
  | 'f' => some (Char.ofNat 12)
  | 'n' => some '\n'
  | 'r' => some '\r'
  | 't' => some '\t'
  | _ => none

/-- Parse a string body up to the closing quote, undoing the escapes. -/
def parseJStringBody : List Char → Option (List Char × List Char)
  | [] => none
  | '\"' :: rest => some ([], rest)
  | '\\' :: 'u' :: h1 :: h2 :: h3 :: h4 :: rest =>
    match hexVal h1, hexVal h2, hexVal h3, hexVal h4 with
    | some a, some b, some c, some d =>
      match parseJStringBody rest with
      | some (cs, rem) => some (Char.ofNat (((a * 16 + b) * 16 + c) * 16 + d) :: cs, rem)
      | none => none
    | _, _, _, _ => none
  | '\\' :: e :: rest =>
    match escapeCodeChar e with
    | some c =>
      match parseJStringBody rest with
      | some (cs, rem) => some (c :: cs, rem)
      | none => none
    | none => none
  | c :: rest =>
    match parseJStringBody rest with
    | some (cs, rem) => some (c :: cs, rem)
    | none => none

/-- Parse a JSON string literal. -/
def parseJString : List Char → Option (String × List Char)
  | '\"' :: rest =>
    match parseJStringBody rest with
    | some (cs, rem) => some (String.mk cs, rem)
    | none => none
  | _ => none

/-- Parse the members of a nonempty string array, fuelled by the member
count (any fuel at least the length works). -/
def parseStrArrItems : Nat → List Char → Option (List String × List Char)
  | 0, _ => none
  | fuel + 1, l =>
    match parseJString l with
    | none => none
    | some (s, r) =>
      match r with
      | ',' :: r2 =>
        match parseStrArrItems fuel r2 with
        | some (ss, rem) => some (s :: ss, rem)
        | none => none
      | ']' :: r2 => some ([s], r2)
      | _ => none

/-- Parse one JSON value of the recipe fragment. -/
def parseJVal : List Char → Option (JVal × List Char)
  | '\"' :: rest =>
    match parseJStringBody rest with
    | some (cs, rem) => some (JVal.s (String.mk cs), rem)
    | none => none
  | 't' :: 'r' :: 'u' :: 'e' :: rest => some (JVal.b true, rest)
  | 'f' :: 'a' :: 'l' :: 's' :: 'e' :: rest => some (JVal.b false, rest)
  | 'n' :: 'u' :: 'l' :: 'l' :: rest => some (JVal.jnull, rest)
  | '[' :: ']' :: rest => some (JVal.arr [], rest)
  | '[' :: rest =>
    match parseStrArrItems rest.length rest with
    | some (ss, rem) => some (JVal.arr ss, rem)
    | none => none
  | _ => none

/-- Parse the members of a nonempty object, fuelled by the member count. -/
def parseObjItems : Nat → List Char → Option (List (String × JVal) × List Char)
  | 0, _ => none
  | fuel + 1, l =>
    match parseJString l with
    | none => none
    | some (k, r) =>
      match r with
      | ':' :: r2 =>
        match parseJVal r2 with
        | none => none
        | some (v, r3) =>
          match r3 with
          | ',' :: r4 =>
            match parseObjItems fuel r4 with
            | some (kvs, rem) => some ((k, v) :: kvs, rem)
            | none => none
          | '}' :: r4 => some ([(k, v)], r4)
          | _ => none
      | _ => none

/-- Parse one JSON object into its member list. -/
def parseObj : List Char → Option (List (String × JVal) × List Char)
  | '{' :: '}' :: rest => some ([], rest)
  | '{' :: rest => parseObjItems rest.length rest
  | _ => none

/-- First member with the given key (later duplicates are ignored, as a
JavaScript object keeps one binding per key). -/
def lookupKey (kvs : List (String × JVal)) (k : String) : Option JVal :=
  match kvs.find? (fun kv => kv.1 == k) with
  | some kv => some kv.2
  | none => none

/-- View a member as a string. -/
def asStr : Option JVal → Option String
  | some (.s v) => some v
  | _ => none

/-- View a member as a string array. -/
def asArr : Option JVal → Option (List String)
  | some (.arr v) => some v
  | _ => none

/-- Rebuild a `Recipe` from a parsed member list (the app uses the parsed
object directly as the recipe; this view extracts its fields). -/
def recipeOfPairs (kvs : List (String × JVal)) : Option Recipe :=
  match asStr (lookupKey kvs "id"), asStr (lookupKey kvs "recipeName"),
      asStr (lookupKey kvs "description"), asArr (lookupKey kvs "ingredients"),
      asArr (lookupKey kvs "instructions"), asStr (lookupKey kvs "imagePrompt") with
  | some i, some nm, some ds, some ig, some ins, some ip =>
    some { id := i, recipeName := nm, description := ds, ingredients := ig,
           instructions := ins, imagePrompt := ip,
           imageUrl := asStr (lookupKey kvs "imageUrl"),
           imageError :=
             match lookupKey kvs "imageError" with
             | some (.b e) => some e
             | _ => none }
  | _, _, _, _, _, _ => none

/-- `JSON.parse` of a whole recipe document (no trailing input). -/
def parseRecipeJson (l : List Char) : Option Recipe :=
  match parseObj l with
  | some (kvs, []) => recipeOfPairs kvs
  | _ => none

/-! ## Shareable links (C9): base64 (`btoa` / `atob`) -/

/-- The base64 alphabet. -/
def b64Alphabet : List Char :=
  "ABCDEFGHIJKLMNOPQRSTUVWXYZabcdefghijklmnopqrstuvwxyz0123456789+/".data

/-- The base64 digit for a 6-bit value. -/
def b64Char (n : Nat) : Char := b64Alphabet.getD n 'A'

/-- The 6-bit value of a base64 digit. -/
def b64Index (c : Char) : Option Nat := b64Alphabet.findIdx? (· = c)

/-- RFC 4648 base64 of a byte list, with padding. -/
def base64Encode : List Nat → List Char
  | [] => []
  | [a] => [b64Char (a / 4), b64Char (a % 4 * 16), '=', '=']
  | [a, b] => [b64Char (a / 4), b64Char (a % 4 * 16 + b / 16), b64Char (b % 16 * 4), '=']
  | a :: b :: c :: rest =>
    b64Char (a / 4) :: b64Char (a % 4 * 16 + b / 16) :: b64Char (b % 16 * 4 + c / 64)
      :: b64Char (c % 64) :: base64Encode rest

/-- Base64 decoding back to bytes: a final quantum of exactly four digits
may carry padding; earlier quanta may not (`=` is not in the alphabet, so
`b64Index` rejects it there). -/
def base64Decode : List Char → Option (List Nat)
  | [] => some []
  | [c1, c2, c3, c4] =>
    match b64Index c1, b64Index c2 with
    | some v1, some v2 =>
      if c3 = '=' then
        if c4 = '=' then some [v1 * 4 + v2 / 16] else none
      else
        match b64Index c3 with
        | some v3 =>
          if c4 = '=' then some [v1 * 4 + v2 / 16, v2 % 16 * 16 + v3 / 4]
          else
            match b64Index c4 with
            | some v4 => some [v1 * 4 + v2 / 16, v2 % 16 * 16 + v3 / 4, v3 % 4 * 64 + v4]
            | none => none
        | none => none
    | _, _ => none
  | c1 :: c2 :: c3 :: c4 :: c5 :: rest =>
    match b64Index c1, b64Index c2, b64Index c3, b64Index c4,
        base64Decode (c5 :: rest) with
    | some v1, some v2, some v3, some v4, some bs =>
      some ((v1 * 4 + v2 / 16) :: (v2 % 16 * 16 + v3 / 4) :: (v3 % 4 * 64 + v4) :: bs)
    | _, _, _, _, _ => none
  | _ => none

/-- `window.btoa`: defined only on strings of code points up to U+00FF
(otherwise it throws `InvalidCharacterError`, modelled as `none`). -/
def btoa (l : List Char) : Option (List Char) :=
  if l.all (fun c => c.toNat ≤ 255) then some (base64Encode (l.map Char.toNat))
  else none

/-- `window.atob`, `none` on input that is not valid base64. -/
def atob (l : List Char) : Option (List Char) :=
  match base64Decode l with
  | some bs => some (bs.map Char.ofNat)
  | none => none

/-- The `recipe` query parameter of `generateShareableLink`:
`btoa(JSON.stringify(recipe))`. -/
def encodeRecipeParam (r : Recipe) : Option (List Char) :=
  btoa (stringifyRecipe r)

/-- The load-time decoding `JSON.parse(atob(recipeData))`. -/
def decodeRecipeParam (l : List Char) : Option Recipe :=
  match atob l with
  | some cs => parseRecipeJson cs
  | none => none

/-- Encode a recipe into the shareable-link parameter and decode it back. -/
def shareRoundTrip (r : Recipe) : Option Recipe :=
  match encodeRecipeParam r with
  | some l => decodeRecipeParam l
  | none => none

/-! ## Base64 round trip -/

/-- Decoding a base64 digit inverts encoding (64 cases). -/
theorem b64Index_b64Char : ∀ n : Nat, n < 64 → b64Index (b64Char n) = some n := by decide

/-- No base64 digit is the padding character. -/
theorem b64Char_ne_eq : ∀ n : Nat, n < 64 → b64Char n ≠ '=' := by decide

/-- `base64Decode` inverts `base64Encode` on byte lists. -/
theorem base64_roundtrip : ∀ l : List Nat, (∀ x ∈ l, x < 256) →
    base64Decode (base64Encode l) = some l
  | [], _ => rfl
  | [a], h => by
    have ha : a < 256 := h a (by simp)
    show base64Decode [b64Char (a / 4), b64Char (a % 4 * 16), '=', '='] = some [a]
    rw [base64Decode]
    rw [b64Index_b64Char _ (by omega), b64Index_b64Char _ (by omega)]
    dsimp only
    rw [if_pos rfl, if_pos rfl]
    have e : a / 4 * 4 + a % 4 * 16 / 16 = a := by omega
    rw [e]
  | [a, b], h => by
    have ha : a < 256 := h a (by simp)
    have hb : b < 256 := h b (by simp)
    show base64Decode
        [b64Char (a / 4), b64Char (a % 4 * 16 + b / 16), b64Char (b % 16 * 4), '='] = some [a, b]
    rw [base64Decode]
    rw [b64Index_b64Char _ (by omega), b64Index_b64Char _ (by omega)]
    dsimp only
    rw [if_neg (b64Char_ne_eq _ (by omega))]
    rw [b64Index_b64Char _ (by omega)]
    dsimp only
    rw [if_pos rfl]
    have e1 : a / 4 * 4 + (a % 4 * 16 + b / 16) / 16 = a := by omega
    have e2 : (a % 4 * 16 + b / 16) % 16 * 16 + b % 16 * 4 / 4 = b := by omega
    rw [e1, e2]
  | a :: b :: c :: rest, h => by
    have ha : a < 256 := h a (by simp)
    have hb : b < 256 := h b (by simp)
    have hc : c < 256 := h c (by simp)
    cases rest with
    | nil =>
      show base64Decode [b64Char (a / 4), b64Char (a % 4 * 16 + b / 16),
        b64Char (b % 16 * 4 + c / 64), b64Char (c % 64)] = some [a, b, c]
      rw [base64Decode]
      rw [b64Index_b64Char _ (by omega), b64Index_b64Char _ (by omega)]
      dsimp only
      rw [if_neg (b64Char_ne_eq _ (by omega))]
      rw [b64Index_b64Char _ (by omega)]
      dsimp only
      rw [if_neg (b64Char_ne_eq _ (by omega))]
      rw [b64Index_b64Char _ (by omega)]
      dsimp only
      have e1 : a / 4 * 4 + (a % 4 * 16 + b / 16) / 16 = a := by omega
      have e2 : (a % 4 * 16 + b / 16) % 16 * 16 + (b % 16 * 4 + c / 64) / 4 = b := by omega
      have e3 : (b % 16 * 4 + c / 64) % 4 * 64 + c % 64 = c := by omega
      rw [e1, e2, e3]
    | cons d rest2 =>
      have hrec := base64_roundtrip (d :: rest2) (fun x hx => h x (List.mem_cons_of_mem a (List.mem_cons_of_mem b (List.mem_cons_of_mem c hx))))
      have hshape : ∃ e1 e2 erest, base64Encode (d :: rest2) = e1 :: e2 :: erest := by
        cases rest2 with
        | nil => exact ⟨_, _, _, rfl⟩
        | cons e rest3 =>
          cases rest3 with
          | nil => exact ⟨_, _, _, rfl⟩
          | cons f rest4 => exact ⟨_, _, _, rfl⟩
      obtain ⟨e1, e2, erest, hsh⟩ := hshape
      show base64Decode (b64Char (a / 4) :: b64Char (a % 4 * 16 + b / 16) ::
        b64Char (b % 16 * 4 + c / 64) :: b64Char (c % 64) :: base64Encode (d :: rest2))
        = some (a :: b :: c :: d :: rest2)
      rw [hsh] at hrec ⊢
      rw [base64Decode]
      rw [b64Index_b64Char _ (by omega), b64Index_b64Char _ (by omega),
        b64Index_b64Char _ (by omega), b64Index_b64Char _ (by omega), hrec]
      dsimp only
      have e1h : a / 4 * 4 + (a % 4 * 16 + b / 16) / 16 = a := by omega
      have e2h : (a % 4 * 16 + b / 16) % 16 * 16 + (b % 16 * 4 + c / 64) / 4 = b := by omega
      have e3h : (b % 16 * 4 + c / 64) % 4 * 64 + c % 64 = c := by omega
      rw [e1h, e2h, e3h]

/-! ## JSON round trip and the shareable-link claim (C9) -/

/-- Reading a hexadecimal digit inverts printing it (16 cases). -/
theorem hexVal_hexDigitChar : ∀ k : Nat, k < 16 → hexVal (hexDigitChar k) = some k := by decide

/-- Unescaping inverts escaping: parsing an escaped body up to its closing
quote recovers the original characters and the rest of the input. -/
theorem parseJStringBody_escape : ∀ (cs rest : List Char),
    parseJStringBody (escapeChars cs ++ '\"' :: rest) = some (cs, rest)
  | [], rest => rfl
  | c :: cs, rest => by
    have ih := parseJStringBody_escape cs rest
    show parseJStringBody (jsonEscapeChar c ++ escapeChars cs ++ '\"' :: rest)
      = some (c :: cs, rest)
    unfold jsonEscapeChar
    by_cases h1 : c = '\"'
    · subst h1
      simp only [if_pos rfl]
      simp [parseJStringBody, escapeCodeChar, ih]
    · rw [if_neg h1]
      by_cases h2 : c = '\\'
      · subst h2
        simp only [if_pos rfl]
        simp [parseJStringBody, escapeCodeChar, ih]
      · rw [if_neg h2]
        by_cases h3 : c = Char.ofNat 8
        · subst h3
          simp only [if_pos rfl]
          simp [parseJStringBody, escapeCodeChar, ih]
        · rw [if_neg h3]
          by_cases h4 : c = '\t'
          · subst h4
            simp only [if_pos rfl]
            simp [parseJStringBody, escapeCodeChar, ih]
          · rw [if_neg h4]
            by_cases h5 : c = '\n'
            · subst h5
              simp only [if_pos rfl]
              simp [parseJStringBody, escapeCodeChar, ih]
            · rw [if_neg h5]
              by_cases h6 : c = Char.ofNat 12
              · subst h6
                simp only [if_pos rfl]
                simp [parseJStringBody, escapeCodeChar, ih]
              · rw [if_neg h6]
                by_cases h7 : c = '\r'
                · subst h7
                  simp only [if_pos rfl]
                  simp [parseJStringBody, escapeCodeChar, ih]
                · rw [if_neg h7]
                  by_cases h8 : c.toNat < 32
                  · rw [if_pos h8]
                    simp only [List.cons_append, List.nil_append]
                    rw [parseJStringBody]
                    have hv0 : hexVal '0' = some 0 := by decide
                    rw [hv0, hexVal_hexDigitChar _ (by omega), hexVal_hexDigitChar _ (by omega)]
                    dsimp only
                    rw [ih]
                    have e : ((0 * 16 + 0) * 16 + c.toNat / 16) * 16 + c.toNat % 16 = c.toNat := by omega
                    rw [e, Char.ofNat_toNat]
                  · rw [if_neg h8]
                    simp only [List.cons_append, List.nil_append]
                    rw [parseJStringBody]
                    · rw [ih]
                    all_goals (intros; simp_all)



/-- Parsing a printed string literal recovers the string. -/
theorem parseJString_print (s : String) (rest : List Char) :
    parseJString (printJString s ++ rest) = some (s, rest) := by
  show parseJString ('\"' :: (escapeChars s.data ++ ['\"']) ++ rest) = some (s, rest)
  rw [List.cons_append, List.append_assoc, List.singleton_append]
  rw [parseJString]
  rw [parseJStringBody_escape]

/-- A printed string literal has at least its two quotes. -/
theorem two_le_length_printJString (s : String) : 2 ≤ (printJString s).length := by
  show 2 ≤ ('\"' :: (escapeChars s.data ++ ['\"'])).length
  simp [List.length_append]

/-- A comma-separated print of n items (each at least 2 characters) has at
least n characters — the fuel bound for the item parsers. -/
theorem sepComma_length_ge {α : Type} (f : α → List Char) (hf : ∀ a, 2 ≤ (f a).length) :
    ∀ xs : List α, xs ≠ [] → xs.length ≤ (sepComma (xs.map f)).length
  | [], hne => absurd rfl hne
  | [x], _ => by
    have := hf x
    simpa [sepComma] using by omega
  | x :: y :: ys, _ => by
    have ih := sepComma_length_ge f hf (y :: ys) (by simp)
    have hx := hf x
    show (x :: y :: ys).length ≤ (f x ++ ',' :: sepComma ((y :: ys).map f)).length
    simp only [List.length_append, List.length_cons] at *
    omega

/-- Parsing the printed members of a nonempty string array recovers them,
for any sufficient fuel. -/
theorem parseStrArrItems_print : ∀ (xs : List String) (fuel : Nat) (rest : List Char),
    xs ≠ [] → xs.length ≤ fuel →
    parseStrArrItems fuel (sepComma (xs.map printJString) ++ ']' :: rest) = some (xs, rest)
  | [], _, _, hne, _ => absurd rfl hne
  | [x], fuel, rest, _, hfuel => by
    cases fuel with
    | zero => simp at hfuel
    | succ f =>
      rw [parseStrArrItems]
      show (match parseJString (printJString x ++ ']' :: rest) with
        | none => none
        | some (s, r) => _) = _
      rw [parseJString_print]
      rfl
  | x :: y :: ys, fuel, rest, _, hfuel => by
    cases fuel with
    | zero => simp at hfuel
    | succ f =>
      have ih := parseStrArrItems_print (y :: ys) f rest (by simp) (by simp at hfuel ⊢; omega)
      rw [parseStrArrItems]
      show (match parseJString (printJString x ++ ',' :: sepComma ((y :: ys).map printJString) ++ ']' :: rest) with
        | none => none
        | some (s, r) => _) = _
      rw [List.append_assoc, List.cons_append]
      show (match parseJString (printJString x ++ ',' :: (sepComma ((y :: ys).map printJString) ++ ']' :: rest)) with
        | none => none
        | some (s, r) => _) = _
      rw [parseJString_print]
      show (match parseStrArrItems f (sepComma ((y :: ys).map printJString) ++ ']' :: rest) with
        | some (ss, rem) => some (x :: ss, rem)
        | none => none) = _
      rw [ih]



/-- A nonempty member print starts with a quote (used to steer the parser
past the empty-array and empty-object patterns). -/
theorem sepComma_head_quote {α : Type} (f : α → List Char)
    (hf : ∀ a, ∃ t, f a = '\"' :: t) (x : α) (xs : List α) :
    ∃ t, sepComma ((x :: xs).map f) = '\"' :: t := by
  obtain ⟨t, ht⟩ := hf x
  cases xs with
  | nil => exact ⟨t, by simpa [sepComma] using ht⟩
  | cons y ys =>
    refine ⟨t ++ ',' :: sepComma ((y :: ys).map f), ?_⟩
    show f x ++ ',' :: sepComma ((y :: ys).map f) = _
    rw [ht]
    rfl

/-- A printed string literal starts with its opening quote. -/
theorem printJString_head_quote (s : String) : ∃ t, printJString s = '\"' :: t :=
  ⟨escapeChars s.data ++ ['\"'], rfl⟩

/-- Parsing a printed JSON value recovers it. -/
theorem parseJVal_print : ∀ (v : JVal) (rest : List Char),
    parseJVal (printJVal v ++ rest) = some (v, rest)
  | .s s, rest => by
    show parseJVal ('\"' :: (escapeChars s.data ++ ['\"']) ++ rest) = some (JVal.s s, rest)
    rw [List.cons_append, List.append_assoc, List.singleton_append]
    rw [parseJVal]
    rw [parseJStringBody_escape]
  | .b true, rest => rfl
  | .b false, rest => rfl
  | .jnull, rest => rfl
  | .arr [], rest => rfl
  | .arr (x :: xs), rest => by
    show parseJVal ('[' :: (sepComma ((x :: xs).map printJString) ++ [']']) ++ rest)
      = some (JVal.arr (x :: xs), rest)
    rw [List.cons_append, List.append_assoc, List.singleton_append]
    obtain ⟨t, ht⟩ := sepComma_head_quote printJString printJString_head_quote x xs
    rw [ht, List.cons_append]
    rw [parseJVal]
    · have hlen := sepComma_length_ge printJString two_le_length_printJString (x :: xs) (by simp)
      rw [← List.cons_append, ← ht]
      rw [parseStrArrItems_print (x :: xs) _ rest (by simp)
        (by simp only [List.length_append, List.length_cons] at hlen ⊢; omega)]
    · intro r h
      simp at h

/-- A printed member starts with the quote of its key. -/
theorem printPair_head_quote (kv : String × JVal) : ∃ t, printPair kv = '\"' :: t := by
  obtain ⟨t, ht⟩ := printJString_head_quote kv.1
  exact ⟨t ++ ':' :: printJVal kv.2, by show printJString kv.1 ++ _ = _; rw [ht]; rfl⟩

/-- A printed member has at least two characters. -/
theorem two_le_length_printPair (kv : String × JVal) : 2 ≤ (printPair kv).length := by
  show 2 ≤ (printJString kv.1 ++ ':' :: printJVal kv.2).length
  have := two_le_length_printJString kv.1
  simp only [List.length_append]
  omega

/-- Parsing the printed members of a nonempty object recovers them, for any
sufficient fuel. -/
theorem parseObjItems_print : ∀ (kvs : List (String × JVal)) (fuel : Nat) (rest : List Char),
    kvs ≠ [] → kvs.length ≤ fuel →
    parseObjItems fuel (sepComma (kvs.map printPair) ++ '}' :: rest) = some (kvs, rest)
  | [], _, _, hne, _ => absurd rfl hne
  | [(k, v)], fuel, rest, _, hfuel => by
    cases fuel with
    | zero => simp at hfuel
    | succ f =>
      show parseObjItems (f + 1) ((printJString k ++ ':' :: printJVal v) ++ '}' :: rest)
        = some ([(k, v)], rest)
      rw [List.append_assoc, List.cons_append]
      rw [parseObjItems]
      show (match parseJString (printJString k ++ ':' :: (printJVal v ++ '}' :: rest)) with
        | none => none
        | some (s, r) => _) = _
      rw [parseJString_print]
      show (match parseJVal (printJVal v ++ '}' :: rest) with
        | none => none
        | some (w, r3) => _) = _
      rw [parseJVal_print]
      rfl
  | (k, v) :: kv2 :: kvs, fuel, rest, _, hfuel => by
    cases fuel with
    | zero => simp at hfuel
    | succ f =>
      have ih := parseObjItems_print (kv2 :: kvs) f rest (by simp)
        (by simp only [List.length_cons] at hfuel ⊢; omega)
      show parseObjItems (f + 1) ((printJString k ++ ':' :: printJVal v) ++
        ',' :: sepComma ((kv2 :: kvs).map printPair) ++ '}' :: rest) = _
      rw [List.append_assoc, List.cons_append, List.append_assoc, List.cons_append]
      rw [parseObjItems]
      show (match parseJString (printJString k ++ ':' :: (printJVal v ++
          ',' :: (sepComma ((kv2 :: kvs).map printPair) ++ '}' :: rest))) with
        | none => none
        | some (s, r) => _) = _
      rw [parseJString_print]
      show (match parseJVal (printJVal v ++
          ',' :: (sepComma ((kv2 :: kvs).map printPair) ++ '}' :: rest)) with
        | none => none
        | some (w, r3) => _) = _
      rw [parseJVal_print]
      show (match parseObjItems f (sepComma ((kv2 :: kvs).map printPair) ++ '}' :: rest) with
        | some (kvs2, rem) => some ((k, v) :: kvs2, rem)
        | none => none) = _
      rw [ih]

/-- Parsing a printed object recovers its member list. -/
theorem parseObj_print (kvs : List (String × JVal)) (rest : List Char) (hne : kvs ≠ []) :
    parseObj ('{' :: (sepComma (kvs.map printPair) ++ '}' :: rest)) = some (kvs, rest) := by
  cases kvs with
  | nil => exact absurd rfl hne
  | cons x xs =>
    obtain ⟨t, ht⟩ := sepComma_head_quote printPair printPair_head_quote x xs
    rw [ht, List.cons_append]
    rw [parseObj]
    · have hlen := sepComma_length_ge printPair two_le_length_printPair (x :: xs) (by simp)
      rw [← List.cons_append, ← ht]
      rw [parseObjItems_print (x :: xs) _ rest (by simp)
        (by simp only [List.length_append, List.length_cons] at hlen ⊢; omega)]
    · intro r h
      simp at h

/-- Rebuilding a recipe from its own serialized members recovers it. -/
theorem recipeOfPairs_recipePairs (r : Recipe) :
    recipeOfPairs (recipePairs r) = some r := by
  obtain ⟨i, nm, ds, ig, ins, ip, iu, ie⟩ := r
  cases iu <;> cases ie <;> rfl

/-- `JSON.parse` inverts `JSON.stringify` on recipes. -/
theorem parseRecipeJson_stringify (r : Recipe) :
    parseRecipeJson (stringifyRecipe r) = some r := by
  unfold parseRecipeJson stringifyRecipe
  rw [parseObj_print (recipePairs r) [] (by simp [recipePairs])]
  exact recipeOfPairs_recipePairs r

/-- Code points below the `btoa` bound survive the byte round trip. -/
theorem ofNat_toNat_map : ∀ l : List Char, (l.map Char.toNat).map Char.ofNat = l
  | [] => rfl
  | c :: cs => by
    simp only [List.map_cons, Char.ofNat_toNat, ofNat_toNat_map cs]

/-- C9 amended: for every recipe whose JSON serialization stays within
`btoa`'s domain (all code points at most U+00FF), encoding the recipe into
the shareable-link parameter and decoding it back yields the recipe itself —
in particular a recipe with name and identifier identical to the
original's.  (Outside that domain `btoa` throws and no recipe is yielded:
`shareLink_fails_beyond_latin1`.) -/
theorem shareRoundTrip_spec (r : Recipe)
    (h : ∀ c ∈ stringifyRecipe r, c.toNat ≤ 255) :
    shareRoundTrip r = some r
    ∧ ∃ rr, shareRoundTrip r = some rr ∧ rr.recipeName = r.recipeName ∧ rr.id = r.id := by
  have hall : (stringifyRecipe r).all (fun c => c.toNat ≤ 255) = true := by
    rw [List.all_eq_true]
    intro c hc
    simpa using h c hc
  have henc : encodeRecipeParam r
      = some (base64Encode ((stringifyRecipe r).map Char.toNat)) := by
    unfold encodeRecipeParam btoa
    simp [hall]
  have hdec : base64Decode (base64Encode ((stringifyRecipe r).map Char.toNat))
      = some ((stringifyRecipe r).map Char.toNat) := by
    refine base64_roundtrip _ ?_
    intro x hx
    obtain ⟨c, hc, rfl⟩ := List.mem_map.mp hx
    have := h c hc
    omega
  have hshare : shareRoundTrip r = some r := by
    unfold shareRoundTrip decodeRecipeParam atob
    rw [henc]
    dsimp only
    rw [hdec]
    dsimp only
    rw [ofNat_toNat_map]
    exact parseRecipeJson_stringify r
  exact ⟨hshare, r, hshare, rfl, rfl⟩

/-- A recipe whose name contains code points above U+00FF. -/
def euroRecipe : Recipe :=
  { id := "r9", recipeName := "Crème brûlée €", description := "A dessert",
    ingredients := ["cream"], instructions := ["Chill"], imagePrompt := "p",
    imageUrl := none, imageError := none }

set_option maxRecDepth 4000 in
/-- C9 counterexample: `btoa` is only defined on code points up to U+00FF,
so sharing a recipe named `Crème brûlée €` throws (`none`) and the round
trip yields no recipe at all, let alone one with the original name and
identifier. -/
theorem shareLink_fails_beyond_latin1 :
    shareRoundTrip euroRecipe = none
    ∧ ¬∃ rr : Recipe, shareRoundTrip euroRecipe = some rr
        ∧ rr.recipeName = euroRecipe.recipeName ∧ rr.id = euroRecipe.id := by
  have h : shareRoundTrip euroRecipe = none := by decide
  refine ⟨h, ?_⟩
  rintro ⟨rr, hrr, -, -⟩
  rw [h] at hrr
  cases hrr

/-- A Latin-1 recipe for the C9 witness. -/
def tinyRecipe : Recipe :=
  { id := "a", recipeName := "b", description := "c", ingredients := ["x"],
    instructions := [], imagePrompt := "p", imageUrl := none, imageError := some true }

set_option maxRecDepth 8000 in
/-- Witness for C9's amended theorem: the Latin-1 hypothesis discharged on
a concrete recipe and the round trip evaluated. -/
theorem shareRoundTrip_spec_witness :
    (∀ c ∈ stringifyRecipe tinyRecipe, c.toNat ≤ 255)
    ∧ shareRoundTrip tinyRecipe = some tinyRecipe :=
  ⟨by decide, (shareRoundTrip_spec tinyRecipe (by decide)).1⟩

end Plateful
